import Mathlib

/-!
Verification development for a currency-converter core consisting of two
Python modules: a rate-table acquirer (data_fetcher.py) and a conversion
engine (converter.py).

Shallow embedding conventions:
* Python floats are modelled by `PFloat`: an exact rational (`ℚ`) for finite
  values plus the special values NaN, +inf and -inf.  IEEE rounding of finite
  arithmetic is idealised as exact rational arithmetic; the special-value
  propagation rules (NaN poisoning, signed infinities, the comparison rules
  `nan < 0 = False`, `nan == 0 = False`) are modelled exactly.
* Dynamically typed Python values passed as an amount are modelled by `PyVal`;
  the builtin `float(...)` coercion is modelled by `pyFloatCoerce`, including
  its parsing of decimal string literals (sign, digits, fraction, exponent,
  and the special names inf/infinity/nan, ASCII case-insensitively).
* `str.upper()` and `str.strip()` are modelled on ASCII data by `pyUpper` and
  `pyStrip` (the claims only exercise ASCII currency codes and whitespace).
* pandas DataFrames are modelled positionally: a raw table from read_html is
  a `RawFrame` (column labels plus rows of string cells, as everything is
  passed through astype(str) before numeric conversion); the normalised rate
  table indexed by CharCode is a `List RateRow`.  The spec's RateTable is
  uniquely keyed, which appears as a Nodup hypothesis on the code column.
* Exceptions become `Except` values.  The distinction between the library's
  own `DataParseError` (a ValueError subclass) and a plain pandas `ValueError`
  escaping uncaught is kept by separate constructors of `FetchError`.
* The network fetch and the HTML-to-tables step of `fetch_cbr_rates` are I/O
  and are not embedded; `process_tables` models the function from the list of
  discovered tables onward (the empty-check, table selection by column
  signature, and normalisation).
-/

instance {ε α : Type} [DecidableEq ε] [DecidableEq α] : DecidableEq (Except ε α) := fun a b =>
  match a, b with
  | .error e, .error f =>
    if h : e = f then .isTrue (by rw [h]) else .isFalse (fun hh => by cases hh; exact h rfl)
  | .error _, .ok _ => .isFalse (fun hh => by cases hh)
  | .ok _, .error _ => .isFalse (fun hh => by cases hh)
  | .ok x, .ok y =>
    if h : x = y then .isTrue (by rw [h]) else .isFalse (fun hh => by cases hh; exact h rfl)

/-- Model of a Python float: exact rational for finite values, plus NaN and
the two infinities. -/
inductive PFloat where
  | num (q : ℚ)
  | nan
  | inf
  | ninf
deriving DecidableEq

/-- Model of `x < 0` on a Python float (NaN compares false, -inf true). -/
def PFloat.IsNeg : PFloat → Prop
  | .num q => q < 0
  | .nan => False
  | .inf => False
  | .ninf => True

instance : DecidablePred PFloat.IsNeg := fun x => by
  cases x <;> simp only [PFloat.IsNeg] <;> infer_instance

/-- Model of `x <= 0` on a Python float (NaN compares false). -/
def PFloat.NonPos : PFloat → Prop
  | .num q => q ≤ 0
  | .nan => False
  | .inf => False
  | .ninf => True

instance : DecidablePred PFloat.NonPos := fun x => by
  cases x <;> simp only [PFloat.NonPos] <;> infer_instance

/-- Model of `x == 0` on a Python float (NaN compares false to everything). -/
def PFloat.EqZero : PFloat → Prop
  | .num q => q = 0
  | .nan => False
  | .inf => False
  | .ninf => False

instance : DecidablePred PFloat.EqZero := fun x => by
  cases x <;> simp only [PFloat.EqZero] <;> infer_instance

/-- Model of Python float multiplication: NaN propagates, infinities follow
the sign of the finite operand, `inf * 0` is NaN. -/
def PFloat.mul : PFloat → PFloat → PFloat
  | .nan, _ => .nan
  | _, .nan => .nan
  | .num a, .num b => .num (a * b)
  | .num a, .inf => if 0 < a then .inf else if a < 0 then .ninf else .nan
  | .num a, .ninf => if 0 < a then .ninf else if a < 0 then .inf else .nan
  | .inf, .num b => if 0 < b then .inf else if b < 0 then .ninf else .nan
  | .ninf, .num b => if 0 < b then .ninf else if b < 0 then .inf else .nan
  | .inf, .inf => .inf
  | .inf, .ninf => .ninf
  | .ninf, .inf => .ninf
  | .ninf, .ninf => .inf

/-- Model of Python float division.  Every use in the embedded code is guarded
so that the divisor is never exactly zero (Python would raise
ZeroDivisionError there); on a zero divisor this model returns the junk value
produced by ℚ division (num (a / 0) = num 0), which no guarded path observes. -/
def PFloat.div : PFloat → PFloat → PFloat
  | .nan, _ => .nan
  | _, .nan => .nan
  | .num a, .num b => .num (a / b)
  | .num _, .inf => .num 0
  | .num _, .ninf => .num 0
  | .inf, .num b => if 0 ≤ b then .inf else .ninf
  | .ninf, .num b => if 0 ≤ b then .ninf else .inf
  | .inf, .inf => .nan
  | .inf, .ninf => .nan
  | .ninf, .inf => .nan
  | .ninf, .ninf => .nan

/-- Model of a dynamically typed Python value passed where a number is
expected.  `obj` stands for any other object on which `float()` raises
TypeError (None is kept separate only for readability). -/
inductive PyVal where
  | float (x : PFloat)
  | int (n : ℤ)
  | bool (b : Bool)
  | str (s : String)
  | pyNone
  | obj
deriving DecidableEq

/-- Whitespace characters stripped by Python (ASCII whitespace plus the
non-breaking space, which suffices for the data handled here). -/
def isPySpace (c : Char) : Bool :=
  c == ' ' || c == '\t' || c == '\n' || c == '\r' || c == '\x0b' || c == '\x0c' || c == '\xa0'

/-- Strip leading and trailing whitespace from a character list. -/
def stripList (cs : List Char) : List Char :=
  List.rdropWhile isPySpace (cs.dropWhile isPySpace)

/-- Model of Python `str.strip()`. -/
def pyStrip (s : String) : String :=
  String.mk (stripList s.data)

/-- ASCII uppercase of one character (the embedded data is ASCII; Unicode
case-mapping of `str.upper()` is not needed by the claims). -/
def asciiUpper (c : Char) : Char :=
  if 97 ≤ c.toNat ∧ c.toNat ≤ 122 then Char.ofNat (c.toNat - 32) else c

/-- Model of Python `str.upper()` on ASCII data. -/
def pyUpper (s : String) : String :=
  String.mk (s.data.map asciiUpper)

/-- Model of `str(code).upper().strip()`, the code normalisation used by the
converter (`str` on a string is the identity). -/
def pyNormCode (s : String) : String :=
  pyStrip (pyUpper s)

/-- Lexicographic-by-code-point comparison of character lists, the ordering
Python uses on strings (and pandas uses for `sort_index`). -/
def charListLe : List Char → List Char → Bool
  | [], _ => true
  | _ :: _, [] => false
  | a :: as, b :: bs => if a = b then charListLe as bs else decide (a < b)

/-- Numeric value of a digit list (most significant first). -/
def digitsToNat (cs : List Char) : ℕ :=
  cs.foldl (fun a c => 10 * a + (c.toNat - 48)) 0

/-- Assemble `sgn * mant * 10 ^ (e - scale)` as an exact rational, where
`scale` is the number of fraction digits folded into `mant`. -/
def scaledRat (sgn : ℤ) (mant : ℕ) (scale : ℕ) (e : ℤ) : ℚ :=
  let shift : ℤ := e - (scale : ℤ)
  if 0 ≤ shift then mkRat (sgn * (mant : ℤ) * ((10 ^ shift.toNat : ℕ) : ℤ)) 1
  else mkRat (sgn * (mant : ℤ)) (10 ^ (-shift).toNat)

/-- Parse the mantissa part of a float literal: digits with an optional
decimal point; returns the digits folded to a natural, the number of fraction
digits, and the unconsumed tail.  At least one digit is required. -/
def parseMantissa (cs : List Char) : Option (ℕ × ℕ × List Char) :=
  let ip := cs.takeWhile (fun c => c.isDigit)
  let r1 := cs.dropWhile (fun c => c.isDigit)
  match r1 with
  | c :: r2 =>
    if c = '.' then
      let fp := r2.takeWhile (fun c => c.isDigit)
      let r3 := r2.dropWhile (fun c => c.isDigit)
      if ip.isEmpty && fp.isEmpty then Option.none
      else some (digitsToNat (ip ++ fp), fp.length, r3)
    else if ip.isEmpty then Option.none else some (digitsToNat ip, 0, r1)
  | [] => if ip.isEmpty then Option.none else some (digitsToNat ip, 0, [])

/-- Parse the optional exponent suffix (`e`/`E`, optional sign, digits) of a
float literal; the whole remaining input must be consumed. -/
def parseExpTail (cs : List Char) : Option ℤ :=
  match cs with
  | [] => some 0
  | c :: rest =>
    if c = 'e' ∨ c = 'E' then
      match rest with
      | [] => Option.none
      | c2 :: rest2 =>
        if c2 = '+' then
          if rest2 ≠ [] ∧ rest2.all (fun d => d.isDigit) then some ((digitsToNat rest2 : ℤ))
          else Option.none
        else if c2 = '-' then
          if rest2 ≠ [] ∧ rest2.all (fun d => d.isDigit) then some (-(digitsToNat rest2 : ℤ))
          else Option.none
        else
          if rest.all (fun d => d.isDigit) then some ((digitsToNat rest : ℤ))
          else Option.none
    else Option.none

/-- Model of Python `float(s)` on a string: strip whitespace, optional sign,
then either a special name (inf, infinity, nan — ASCII case-insensitive) or a
decimal literal with optional fraction and exponent.  Returns none where
Python raises ValueError. -/
def pyParseFloat (s : String) : Option PFloat :=
  let cs := (pyStrip s).data
  let sgn : ℤ := match cs with
    | c :: _ => if c = '-' then -1 else 1
    | [] => 1
  let body : List Char := match cs with
    | c :: r => if c = '-' ∨ c = '+' then r else cs
    | [] => []
  let low := body.map Char.toLower
  if low = ['i', 'n', 'f'] ∨ low = ['i', 'n', 'f', 'i', 'n', 'i', 't', 'y'] then
    some (if sgn = 1 then PFloat.inf else PFloat.ninf)
  else if low = ['n', 'a', 'n'] then some PFloat.nan
  else
    match parseMantissa body with
    | Option.none => Option.none
    | some (mant, scale, rest) =>
      match parseExpTail rest with
      | Option.none => Option.none
      | some e => some (.num (scaledRat sgn mant scale e))

/-- Model of the builtin `float(x)` coercion: floats pass through, ints and
bools are exact, strings are parsed, anything else raises (TypeError), and an
unparseable string raises (ValueError); both failure modes are `none` since
the converter catches exactly the pair (TypeError, ValueError). -/
def pyFloatCoerce : PyVal → Option PFloat
  | .float x => some x
  | .int n => some (.num (n : ℚ))
  | .bool b => some (.num (if b then 1 else 0))
  | .str s => pyParseFloat s
  | .pyNone => Option.none
  | .obj => Option.none

/-- The typed failure conditions of converter.py (class ConversionError).
Each constructor corresponds to one distinct raise site and carries the data
interpolated into its message. -/
inductive ConversionError where
  | badAmount
  | negativeAmount
  | unknownCurrency (code : String)
  | badNominal (code : String) (nominal : PFloat)
  | zeroRate (code : String)
  | badTable
deriving DecidableEq

/-- Rendering of one PFloat for a message (display-only; the decimal
rendering Python would use for a non-integral float is abstracted by the
canonical num/den form, which no claim inspects). -/
def pfloatText : PFloat → String
  | .num q => toString q.num ++ (if q.den = 1 then (".0") else ("/" ++ toString q.den))
  | .nan => "nan"
  | .inf => "inf"
  | .ninf => "-inf"

/-- The message string of each ConversionError, mirroring the f-strings of
converter.py. -/
def ConversionError.message : ConversionError → String
  | .badAmount => "Сумма должна быть числом."
  | .negativeAmount => "Сумма должна быть неотрицательной."
  | .unknownCurrency c => "Валюта \x27" ++ c ++ "\x27 отсутствует в таблице курсов."
  | .badNominal c n => "Некорректный номинал для " ++ c ++ ": " ++ pfloatText n
  | .zeroRate c => "Нулевой курс для " ++ c ++ " недопустим."
  | .badTable => "Некорректная таблица курсов: отсутствуют столбцы Value/Nominal."

/-- One row of the normalised rate table (index CharCode; columns Nominal,
Name, Value). -/
structure RateRow where
  code : String
  nominal : PFloat
  name : String
  value : PFloat
deriving DecidableEq

/-- The normalised rate table, keyed by `code` (the spec's RateTable is
uniquely keyed; theorems about lookups therefore assume the code column is
Nodup). -/
abbrev RateTable := List RateRow

/-- Model of `_rate_to_rub`: normalise the code, look it up in the index,
reject a non-positive nominal, and return value / nominal (the per-unit price
in the pivot currency). -/
def rate_to_rub (rates : RateTable) (code : String) : Except ConversionError PFloat :=
  let c := pyNormCode code
  match rates.find? (fun r => r.code == c) with
  | some r =>
    if r.nominal.NonPos then .error (.badNominal c r.nominal)
    else .ok (r.value.div r.nominal)
  | Option.none => .error (.unknownCurrency c)

/-- Model of `convert`: validate the amount via float() coercion and the
`< 0` check, normalise both codes, short-circuit on equal codes, then bridge
through the pivot currency, guarding a zero target rate. -/
def convert (amount : PyVal) (code_from code_to : String) (rates : RateTable) :
    Except ConversionError PFloat :=
  match pyFloatCoerce amount with
  | Option.none => .error .badAmount
  | some amount_value =>
    if amount_value.IsNeg then .error .negativeAmount
    else
      let src := pyNormCode code_from
      let dst := pyNormCode code_to
      if src = dst then .ok amount_value
      else
        match rate_to_rub rates src with
        | .error e => .error e
        | .ok rate_src_rub =>
          match rate_to_rub rates dst with
          | .error e => .error e
          | .ok rate_dst_rub =>
            if rate_dst_rub.EqZero then .error (.zeroRate dst)
            else .ok ((amount_value.mul rate_src_rub).div rate_dst_rub)

/-- Positional model of a pandas DataFrame as get_supported_codes sees it:
index labels (strings — the pipeline's astype(str) guarantees string labels,
so the map(str, index) of the source is the identity here), column labels,
and the cell data (which the function never reads). -/
structure PdFrame where
  index : List String
  columns : List String
  cells : List (List PFloat)
deriving DecidableEq

/-- The dynamically typed argument of get_supported_codes: either an actual
DataFrame or any other object (isinstance fails). -/
inductive PyArg where
  | frame (f : PdFrame)
  | other
deriving DecidableEq

/-- Model of `get_supported_codes`: reject a non-DataFrame or a frame missing
the Value or Nominal column, else return the index labels in index order. -/
def get_supported_codes : PyArg → Except ConversionError (List String)
  | .other => .error .badTable
  | .frame f =>
    if ("Value") ∈ f.columns ∧ ("Nominal") ∈ f.columns then .ok f.index
    else .error .badTable

/-- View of a normalised rate table as the DataFrame the pipeline returns
(index CharCode; columns Nominal, Name, Value). -/
def tableToFrame (t : RateTable) : PdFrame :=
  ⟨t.map (fun r => r.code), [("Nominal"), ("Name"), ("Value")],
    t.map (fun r => [r.nominal, r.value])⟩

/-- One raw table discovered by pandas read_html: column labels and rows of
cells.  Cells are strings: every consumed column is passed through
astype(str) before any numeric conversion. -/
structure RawFrame where
  cols : List String
  rows : List (List String)
deriving DecidableEq

/-- The failure conditions of the post-download part of data_fetcher.py.
`dataParseError` is the module's own DataParseError; `valueError` is a plain
pandas ValueError escaping uncaught (pd.to_numeric with errors="raise" is
called outside any try block); `keyError` is the KeyError of selecting a
missing column (unreachable after signature-based table selection). -/
inductive FetchError where
  | dataParseError (msg : String)
  | valueError (msg : String)
  | keyError
deriving DecidableEq

/-- The required column signature of the rate table (Russian labels). -/
def expected_cols : List String :=
  ["Цифр. код", "Букв. код", "Единиц", "Валюта", "Курс"]

/-- Model of the signature test of `_select_cbr_table`: the expected labels
are a subset of the table's column labels. -/
def matchesSignature (tb : RawFrame) : Bool :=
  expected_cols.all (fun c => tb.cols.contains c)

/-- Model of `_select_cbr_table`: first table whose columns are a superset of
the expected signature, else DataParseError. -/
def select_cbr_table (tables : List RawFrame) : Except FetchError RawFrame :=
  match tables.find? matchesSignature with
  | some tb => .ok tb
  | Option.none => .error (.dataParseError ("Не удалось найти таблицу курсов в HTML странице ЦБ."))

/-- Cells of the column with the given label, if present (rows are read
positionally; pandas frames are rectangular). -/
def RawFrame.colCells (tb : RawFrame) (label : String) : Option (List String) :=
  match tb.cols.findIdx? (fun c => c == label) with
  | some i => some (tb.rows.map (fun r => r.getD i ("")))
  | Option.none => Option.none

/-- Removal of ordinary and non-breaking spaces, modelling the two chained
str.replace calls of `_normalize_rates`. -/
def stripWs (s : String) : String :=
  String.mk (s.data.filter (fun c => ¬(c = ' ' ∨ c = '\xa0')))

/-- Locale decimal-separator fix: replace every comma by a period. -/
def commaToDot (s : String) : String :=
  String.mk (s.data.map (fun c => if c = ',' then '.' else c))

/-- Model of pd.to_numeric(errors="raise") on one cell of the Единиц column
after whitespace removal: parse as a number (pandas accepts the same numeric
literals as float()), else raise a plain ValueError.  The downcast="integer"
option only shrinks the storage dtype and never changes a value. -/
def parseNominalCell (c : String) : Except FetchError PFloat :=
  match pyParseFloat (stripWs c) with
  | some v => .ok v
  | Option.none => .error (.valueError ("Unable to parse string \x22" ++ stripWs c ++ "\x22"))

/-- Model of pd.to_numeric(errors="raise") on one cell of the Курс column
after whitespace removal and comma-to-period replacement. -/
def parseValueCell (c : String) : Except FetchError PFloat :=
  match pyParseFloat (commaToDot (stripWs c)) with
  | some v => .ok v
  | Option.none =>
    .error (.valueError ("Unable to parse string \x22" ++ commaToDot (stripWs c) ++ "\x22"))

/-- Column-wise conversion: the first unparseable cell raises. -/
def parseColumn (f : String → Except FetchError PFloat) :
    List String → Except FetchError (List PFloat)
  | [] => .ok []
  | c :: cs =>
    match f c with
    | .error e => .error e
    | .ok v =>
      match parseColumn f cs with
      | .error e => .error e
      | .ok vs => .ok (v :: vs)

/-- Zip the four converted columns back into rows. -/
def buildRows : List String → List PFloat → List String → List PFloat → List RateRow
  | c :: cs, n :: ns, m :: ms, v :: vs => ⟨c, n, m, v⟩ :: buildRows cs ns ms vs
  | _, _, _, _ => []

/-- The pivot row synthesised when the source table has no RUB row. -/
def rubRow : RateRow :=
  ⟨("RUB"), .num 1, ("Российский рубль"), .num 1⟩

/-- Model of the pivot completion: if no row's code is RUB, append the
synthesised pivot row (df.loc assignment appends at the end); an existing
RUB row is left untouched. -/
def addPivot (rows : List RateRow) : List RateRow :=
  if rows.any (fun r => r.code == "RUB") then rows else rows ++ [rubRow]

/-- Row ordering used by the sort: ascending by code, comparing code points
(this is what both Python string comparison and pandas sort_index do). -/
def rowLe (x y : RateRow) : Prop :=
  charListLe x.code.data y.code.data = true

instance : DecidableRel rowLe := fun x y =>
  inferInstanceAs (Decidable (charListLe x.code.data y.code.data = true))

/-- Insert one row into a code-sorted list (ascending by code points). -/
def insertRow (r : RateRow) : List RateRow → List RateRow
  | [] => [r]
  | s :: rest =>
    if charListLe r.code.data s.code.data then r :: s :: rest else s :: insertRow r rest

/-- Model of df.sort_index(): sort the rows by code ascending. -/
def sortRows : List RateRow → List RateRow
  | [] => []
  | r :: rest => insertRow r (sortRows rest)

/-- Model of `_normalize_rates`: select the four needed columns (KeyError if
one is missing — unreachable in the pipeline), convert Единиц then Курс
column-wise with pd.to_numeric, normalise the codes, append the pivot row if
missing, and sort by code. -/
def normalize_rates (df_raw : RawFrame) : Except FetchError (List RateRow) :=
  match df_raw.colCells ("Букв. код"), df_raw.colCells ("Единиц"),
        df_raw.colCells ("Валюта"), df_raw.colCells ("Курс") with
  | some codes, some units, some names, some vals =>
    match parseColumn parseNominalCell units with
    | .error e => .error e
    | .ok noms =>
      match parseColumn parseValueCell vals with
      | .error e => .error e
      | .ok vnums =>
        .ok (sortRows (addPivot (buildRows (codes.map pyNormCode) noms names vnums)))
  | _, _, _, _ => .error .keyError

/-- Model of `fetch_cbr_rates` from the list of tables discovered in the
retrieved document onward: fail on zero tables, select the rate table by
column signature, normalise it. -/
def process_tables (tables : List RawFrame) : Except FetchError (List RateRow) :=
  if tables.isEmpty then .error (.dataParseError ("На странице отсутствуют таблицы."))
  else
    match select_cbr_table tables with
    | .error e => .error e
    | .ok tb => normalize_rates tb

/-- A source document table in the shape of the CBR daily page (codes USD and
HUF; values carry the locale decimal comma). -/
def goodFrame : RawFrame :=
  ⟨["Цифр. код", "Букв. код", "Единиц", "Валюта", "Курс"],
   [["840", "USD", "1", "Доллар США", "90,00"],
    ["348", "HUF", "100", "Венгерских форинтов", "25,00"]]⟩

/-- The normalised table produced from goodFrame: codes sorted ascending and
the synthesised pivot row present. -/
def goodTable : RateTable :=
  [⟨("HUF"), .num 100, ("Венгерских форинтов"), .num 25⟩,
   rubRow,
   ⟨("USD"), .num 1, ("Доллар США"), .num 90⟩]

/-- A table whose columns do not match the expected signature. -/
def noSigFrame : RawFrame :=
  ⟨["A", "B"], [["x", "y"]]⟩

/-- A signature-matching table whose Курс cell is not a number. -/
def badValueFrame : RawFrame :=
  ⟨["Цифр. код", "Букв. код", "Единиц", "Валюта", "Курс"],
   [["840", "USD", "1", "Доллар США", "abc"]]⟩

/-- A signature-matching table whose Единиц cell is a non-integer number. -/
def fracNominalFrame : RawFrame :=
  ⟨["Цифр. код", "Букв. код", "Единиц", "Валюта", "Курс"],
   [["840", "USD", "10.5", "Доллар США", "90,00"]]⟩

/-- The table fracNominalFrame normalises to: the fractional nominal is
accepted unchanged. -/
def fracTable : RateTable :=
  [rubRow, ⟨("USD"), .num (mkRat 105 10), ("Доллар США"), .num 90⟩]

/-- A signature-matching table that already contains a RUB row with nominal 2
and value 3. -/
def rubSrcFrame : RawFrame :=
  ⟨["Цифр. код", "Букв. код", "Единиц", "Валюта", "Курс"],
   [["643", "RUB", "2", "Российский рубль", "3,00"],
    ["840", "USD", "1", "Доллар США", "90,00"]]⟩

/-- The table rubSrcFrame normalises to: the source RUB row is kept as-is,
with nominal 2 and value 3 rather than the pivot invariant 1 and 1.0. -/
def rubSrcTable : RateTable :=
  [⟨("RUB"), .num 2, ("Российский рубль"), .num 3⟩,
   ⟨("USD"), .num 1, ("Доллар США"), .num 90⟩]

/-! ### Helper lemmas: stepping the converter -/

theorem convert_coerce_fail {a : PyVal} (f g : String) (t : RateTable)
    (h : pyFloatCoerce a = Option.none) : convert a f g t = .error .badAmount := by
  unfold convert
  rw [h]

theorem convert_neg {a : PyVal} (x : PFloat) (f g : String) (t : RateTable)
    (h : pyFloatCoerce a = some x) (hn : x.IsNeg) :
    convert a f g t = .error .negativeAmount := by
  unfold convert
  rw [h]
  simp [hn]

theorem convert_same {a : PyVal} {f g : String} (x : PFloat) (t : RateTable)
    (h : pyFloatCoerce a = some x) (hn : ¬ x.IsNeg) (he : pyNormCode f = pyNormCode g) :
    convert a f g t = .ok x := by
  unfold convert
  rw [h]
  simp [hn, he]

theorem convert_steps {a : PyVal} {f g : String} (x : PFloat) (t : RateTable)
    (h : pyFloatCoerce a = some x) (hn : ¬ x.IsNeg) (he : pyNormCode f ≠ pyNormCode g) :
    convert a f g t =
      match rate_to_rub t (pyNormCode f) with
      | .error e => .error e
      | .ok rs =>
        match rate_to_rub t (pyNormCode g) with
        | .error e => .error e
        | .ok rd =>
          if rd.EqZero then .error (.zeroRate (pyNormCode g))
          else .ok ((x.mul rs).div rd) := by
  unfold convert
  rw [h]
  simp only [if_neg hn, if_neg he]

theorem rate_to_rub_missing {t : RateTable} {c : String}
    (h : t.find? (fun r => r.code == pyNormCode c) = Option.none) :
    rate_to_rub t c = .error (.unknownCurrency (pyNormCode c)) := by
  simp only [rate_to_rub]
  rw [h]

theorem rate_to_rub_found {t : RateTable} {c : String} (r : RateRow)
    (h : t.find? (fun s => s.code == pyNormCode c) = some r) (hb : ¬ r.nominal.NonPos) :
    rate_to_rub t c = .ok (r.value.div r.nominal) := by
  simp only [rate_to_rub]
  rw [h]
  simp [hb]

theorem rate_to_rub_badnom {t : RateTable} {c : String} (r : RateRow)
    (h : t.find? (fun s => s.code == pyNormCode c) = some r) (hb : r.nominal.NonPos) :
    rate_to_rub t c = .error (.badNominal (pyNormCode c) r.nominal) := by
  simp only [rate_to_rub]
  rw [h]
  simp [hb]

theorem find_code_of_nodup {t : RateTable} (hnd : (t.map RateRow.code).Nodup)
    {r : RateRow} (hr : r ∈ t) : t.find? (fun s => s.code == r.code) = some r := by
  induction t with
  | nil => cases hr
  | cons b rest ih =>
    rcases List.mem_cons.mp hr with hb | hrest
    · subst hb
      simp [List.find?]
    · have hne : b.code ≠ r.code := by
        intro hME
        exact (List.nodup_cons.mp hnd).1 (hME ▸ List.mem_map_of_mem RateRow.code hrest)
      simp only [List.find?]
      rw [show (b.code == r.code) = false from beq_eq_false_iff_ne.mpr hne]
      exact ih (List.nodup_cons.mp hnd).2 hrest

/-! ### Helper lemmas: code normalisation is idempotent -/

theorem dropWhile_head_false {α : Type} {p : α → Bool} {l rest : List α} {c : α}
    (h : l.dropWhile p = c :: rest) : p c = false := by
  induction l with
  | nil => cases h
  | cons a as ih =>
    by_cases hp : p a = true
    · rw [List.dropWhile_cons_of_pos hp] at h
      exact ih h
    · rw [List.dropWhile_cons_of_neg hp] at h
      cases h
      simpa using hp

theorem stripList_idem (l : List Char) : stripList (stripList l) = stripList l := by
  unfold stripList
  have h1 : (List.rdropWhile isPySpace (List.dropWhile isPySpace l)).dropWhile isPySpace
      = List.rdropWhile isPySpace (List.dropWhile isPySpace l) := by
    rcases he : List.rdropWhile isPySpace (List.dropWhile isPySpace l) with _ | ⟨c, rest⟩
    · rfl
    · have hpre : List.rdropWhile isPySpace (List.dropWhile isPySpace l) <+:
          List.dropWhile isPySpace l := List.rdropWhile_prefix _ _
      rw [he] at hpre
      obtain ⟨tl, htl⟩ := hpre
      have hc : isPySpace c = false := dropWhile_head_false htl.symm
      rw [List.dropWhile_cons_of_neg (by simp [hc])]
  rw [h1, List.rdropWhile_idempotent]

theorem mem_of_mem_stripList {x : Char} {l : List Char} (h : x ∈ stripList l) : x ∈ l := by
  unfold stripList at h
  exact (List.dropWhile_sublist isPySpace).mem ((List.rdropWhile_prefix _ _).sublist.mem h)

theorem asciiUpper_idem (c : Char) : asciiUpper (asciiUpper c) = asciiUpper c := by
  by_cases h : 97 ≤ c.toNat ∧ c.toNat ≤ 122
  · have e : asciiUpper c = Char.ofNat (c.toNat - 32) := by
      unfold asciiUpper
      rw [if_pos h]
    rw [e]
    obtain ⟨h1, h2⟩ := h
    generalize hg : c.toNat = n at h1 h2 ⊢
    interval_cases n <;> decide
  · have e : asciiUpper c = c := by
      unfold asciiUpper
      rw [if_neg h]
    rw [e]
    exact e

theorem stripList_map_asciiUpper_fixed (l : List Char) :
    (stripList (l.map asciiUpper)).map asciiUpper = stripList (l.map asciiUpper) := by
  have h : ∀ x ∈ stripList (l.map asciiUpper), asciiUpper x = x := by
    intro x hx
    obtain ⟨y, _, he⟩ := List.mem_map.mp (mem_of_mem_stripList hx)
    rw [← he, asciiUpper_idem]
  calc (stripList (l.map asciiUpper)).map asciiUpper
      = (stripList (l.map asciiUpper)).map id := List.map_congr_left h
    _ = stripList (l.map asciiUpper) := List.map_id _

theorem pyNormCode_idem (s : String) : pyNormCode (pyNormCode s) = pyNormCode s := by
  show pyStrip (pyUpper (pyStrip (pyUpper s))) = pyStrip (pyUpper s)
  unfold pyStrip pyUpper
  show String.mk (stripList ((stripList (s.data.map asciiUpper)).map asciiUpper)) = _
  rw [stripList_map_asciiUpper_fixed, stripList_idem]

/-! ### Helper lemmas: the code ordering and the sort -/

theorem charListLe_iff_not_lex (as bs : List Char) :
    charListLe as bs = true ↔ ¬ List.Lex (· < ·) bs as := by
  induction as generalizing bs with
  | nil =>
    simp only [charListLe, true_iff]
    exact List.Lex.not_nil_right (· < ·) bs
  | cons a as ih =>
    cases bs with
    | nil =>
      simp only [charListLe]
      constructor
      · intro h
        cases h
      · intro h
        exact absurd List.Lex.nil h
    | cons b bs =>
      by_cases hab : a = b
      · subst hab
        rw [show charListLe (a :: as) (a :: bs) = charListLe as bs by simp [charListLe]]
        rw [ih bs]
        constructor
        · intro h hl
          exact h (List.Lex.cons_iff.mp hl)
        · intro h hl
          exact h (List.Lex.cons hl)
      · simp only [charListLe, if_neg hab, decide_eq_true_iff]
        constructor
        · intro hlt hl
          cases hl with
          | cons _ => exact hab rfl
          | rel h => exact lt_asymm hlt h
        · intro hnl
          rcases lt_trichotomy a b with h | h | h
          · exact h
          · exact absurd h hab
          · exact absurd (List.Lex.rel h) hnl

theorem charListLe_iff_le (a b : String) : charListLe a.data b.data = true ↔ a ≤ b := by
  rw [String.le_iff_toList_le]
  show _ ↔ a.data ≤ b.data
  rw [← not_lt]
  exact charListLe_iff_not_lex a.data b.data

theorem rowLe_iff {x y : RateRow} : rowLe x y ↔ x.code ≤ y.code := by
  unfold rowLe
  exact charListLe_iff_le x.code y.code

theorem rowLe_total (x y : RateRow) : rowLe x y ∨ rowLe y x := by
  rw [rowLe_iff, rowLe_iff]
  exact le_total x.code y.code

theorem insertRow_perm (r : RateRow) (l : List RateRow) : List.Perm (insertRow r l) (r :: l) := by
  induction l with
  | nil => exact List.Perm.refl _
  | cons s rest ih =>
    unfold insertRow
    by_cases h : charListLe r.code.data s.code.data
    · rw [if_pos h]
    · rw [if_neg h]
      exact (ih.cons s).trans (List.Perm.swap r s rest)

theorem sortRows_perm (l : List RateRow) : List.Perm (sortRows l) l := by
  induction l with
  | nil => exact List.Perm.refl _
  | cons r rest ih =>
    unfold sortRows
    exact (insertRow_perm r (sortRows rest)).trans (ih.cons r)

theorem insertRow_sorted {l : List RateRow} (r : RateRow) (h : List.Sorted rowLe l) :
    List.Sorted rowLe (insertRow r l) := by
  induction l with
  | nil => simp [insertRow]
  | cons s rest ih =>
    unfold insertRow
    by_cases hle : charListLe r.code.data s.code.data
    · rw [if_pos hle]
      refine List.pairwise_cons.mpr ⟨?_, h⟩
      intro x hx
      rcases List.mem_cons.mp hx with he | ht
      · subst he
        exact hle
      · have hsx : rowLe s x := (List.pairwise_cons.mp h).1 x ht
        have h1 : r.code ≤ s.code := rowLe_iff.mp hle
        have h2 : s.code ≤ x.code := rowLe_iff.mp hsx
        exact rowLe_iff.mpr (le_trans h1 h2)
    · rw [if_neg hle]
      have hsr : rowLe s r := by
        rcases rowLe_total r s with hh | hh
        · exact absurd hh hle
        · exact hh
      refine List.pairwise_cons.mpr ⟨?_, ih (List.pairwise_cons.mp h).2⟩
      intro x hx
      have hx2 : x ∈ r :: rest := (insertRow_perm r rest).mem_iff.mp hx
      rcases List.mem_cons.mp hx2 with he | ht
      · subst he
        exact hsr
      · exact (List.pairwise_cons.mp h).1 x ht

theorem sortRows_sorted (l : List RateRow) : List.Sorted rowLe (sortRows l) := by
  induction l with
  | nil => simp [sortRows]
  | cons r rest ih =>
    unfold sortRows
    exact insertRow_sorted r ih

/-! ### Helper lemmas: the normalisation pipeline -/

theorem buildRows_code_mem {cs : List String} {ns : List PFloat} {ms : List String}
    {vs : List PFloat} {r : RateRow} (h : r ∈ buildRows cs ns ms vs) : r.code ∈ cs := by
  induction cs generalizing ns ms vs with
  | nil => simp [buildRows] at h
  | cons c cs ih =>
    cases ns with
    | nil => simp [buildRows] at h
    | cons n ns =>
      cases ms with
      | nil => simp [buildRows] at h
      | cons m ms =>
        cases vs with
        | nil => simp [buildRows] at h
        | cons v vs =>
          rw [show buildRows (c :: cs) (n :: ns) (m :: ms) (v :: vs)
              = ⟨c, n, m, v⟩ :: buildRows cs ns ms vs from rfl] at h
          rcases List.mem_cons.mp h with he | ht
          · rw [he]
            exact List.mem_cons_self c cs
          · exact List.mem_cons_of_mem c (ih ht)

theorem addPivot_rub_mem (rows : List RateRow) : ∃ r ∈ addPivot rows, r.code = "RUB" := by
  unfold addPivot
  by_cases h : rows.any (fun r => r.code == "RUB") = true
  · rw [if_pos h]
    obtain ⟨r, hr, he⟩ := List.any_eq_true.mp h
    exact ⟨r, hr, by simpa using he⟩
  · rw [if_neg h]
    exact ⟨rubRow, by simp, rfl⟩

theorem addPivot_of_no_rub {rows : List RateRow} (h : ∀ r ∈ rows, r.code ≠ "RUB") :
    addPivot rows = rows ++ [rubRow] := by
  unfold addPivot
  rw [if_neg]
  intro hany
  obtain ⟨r, hr, he⟩ := List.any_eq_true.mp hany
  exact h r hr (by simpa using he)

theorem addPivot_countP_one {rows : List RateRow} (h : ∀ r ∈ rows, r.code ≠ "RUB") :
    (addPivot rows).countP (fun r => r.code == "RUB") = 1 := by
  rw [addPivot_of_no_rub h, List.countP_append]
  have h0 : rows.countP (fun r => r.code == "RUB") = 0 := by
    rw [List.countP_eq_zero]
    intro r hr
    simpa using h r hr
  rw [h0]
  rfl

theorem normalize_rates_ok {fr : RawFrame} {t : List RateRow} (h : normalize_rates fr = .ok t) :
    ∃ codes noms names vnums,
      fr.colCells ("Букв. код") = some codes ∧
      t = sortRows (addPivot (buildRows (codes.map pyNormCode) noms names vnums)) := by
  unfold normalize_rates at h
  split at h
  case _ codes units names vals h1 h2 h3 h4 =>
    split at h
    · cases h
    case _ noms hnoms =>
      split at h
      · cases h
      case _ vnums hvnums =>
        exact ⟨codes, noms, names, vnums, h1, (Except.ok.inj h).symm⟩
  case _ => cases h

theorem process_tables_ok {ts : List RawFrame} {t : List RateRow}
    (h : process_tables ts = .ok t) :
    ∃ tb, select_cbr_table ts = .ok tb ∧ normalize_rates tb = .ok t := by
  unfold process_tables at h
  split at h
  · cases h
  · split at h
    · cases h
    case _ tb heq => exact ⟨tb, heq, h⟩

theorem rub_mem_of_normalize_ok {fr : RawFrame} {t : List RateRow}
    (h : normalize_rates fr = .ok t) : ∃ r ∈ t, r.code = "RUB" := by
  obtain ⟨codes, noms, names, vnums, _, ht⟩ := normalize_rates_ok h
  obtain ⟨r, hr, hc⟩ := addPivot_rub_mem (buildRows (codes.map pyNormCode) noms names vnums)
  refine ⟨r, ?_, hc⟩
  rw [ht]
  exact (sortRows_perm _).mem_iff.mpr hr

theorem sorted_of_normalize_ok {fr : RawFrame} {t : List RateRow}
    (h : normalize_rates fr = .ok t) : List.Sorted (fun a b : String => a ≤ b) (t.map RateRow.code) := by
  obtain ⟨codes, noms, names, vnums, _, ht⟩ := normalize_rates_ok h
  rw [ht]
  exact List.Pairwise.map RateRow.code (fun a b hab => rowLe_iff.mp hab) (sortRows_sorted _)

/-! ### Helper lemmas: the conversion formula and error shapes -/

theorem convert_formula (t : RateTable) (hnd : (t.map RateRow.code).Nodup)
    (rx ry : RateRow) (hx : rx ∈ t) (hy : ry ∈ t) (X Y : String)
    (hxc : rx.code = X) (hyc : ry.code = Y)
    (hXn : pyNormCode X = X) (hYn : pyNormCode Y = Y) (hXY : X ≠ Y)
    (nx vx ny vy : ℚ)
    (hnx : rx.nominal = .num nx) (hvx : rx.value = .num vx)
    (hny : ry.nominal = .num ny) (hvy : ry.value = .num vy)
    (hnxp : 0 < nx) (hnyp : 0 < ny)
    (a : ℚ) (ha : 0 ≤ a) :
    convert (.float (.num a)) X Y t =
      if vy / ny = 0 then .error (.zeroRate Y)
      else .ok (.num (a * (vx / nx) / (vy / ny))) := by
  have hco : pyFloatCoerce (.float (.num a)) = some (.num a) := rfl
  have hneg : ¬ (PFloat.num a).IsNeg := by
    simp only [PFloat.IsNeg, not_lt]
    exact ha
  have hne : pyNormCode X ≠ pyNormCode Y := by
    rw [hXn, hYn]
    exact hXY
  rw [convert_steps (.num a) t hco hneg hne]
  rw [hXn, hYn]
  have hfx : t.find? (fun s => s.code == pyNormCode X) = some rx := by
    rw [hXn, ← hxc]
    exact find_code_of_nodup hnd hx
  have hfy : t.find? (fun s => s.code == pyNormCode Y) = some ry := by
    rw [hYn, ← hyc]
    exact find_code_of_nodup hnd hy
  rw [rate_to_rub_found rx hfx (by
        rw [hnx]
        simp only [PFloat.NonPos, not_le]
        exact hnxp)]
  rw [rate_to_rub_found ry hfy (by
        rw [hny]
        simp only [PFloat.NonPos, not_le]
        exact hnyp)]
  rw [hnx, hvx, hny, hvy]
  simp only [PFloat.div, PFloat.mul, PFloat.EqZero]

theorem rate_to_rub_error_shape {t : RateTable} {c : String} {e : ConversionError}
    (h : rate_to_rub t c = .error e) :
    (∃ cc, e = .unknownCurrency cc) ∨ (∃ cc nn, e = .badNominal cc nn) := by
  simp only [rate_to_rub] at h
  split at h
  · split at h
    · right
      exact ⟨_, _, (Except.error.inj h).symm⟩
    · cases h
  · left
    exact ⟨_, (Except.error.inj h).symm⟩

/-! ### The claims -/

/-- Claim C1: for a uniquely keyed rate table holding rows for two distinct
normalised codes X and Y with finite values and positive finite nominals, and
any finite amount a ≥ 0, convert returns
a * (value X / nominal X) / (value Y / nominal Y), failing (with the
zero-rate error) exactly when the target's per-unit pivot price value Y /
nominal Y is zero.  The spec's worked examples are instances (see the
witness). -/
theorem convert_cross_rate_formula (t : RateTable) (hnd : (t.map RateRow.code).Nodup)
    (rx ry : RateRow) (hx : rx ∈ t) (hy : ry ∈ t) (X Y : String)
    (hxc : rx.code = X) (hyc : ry.code = Y)
    (hXn : pyNormCode X = X) (hYn : pyNormCode Y = Y) (hXY : X ≠ Y)
    (nx vx ny vy : ℚ)
    (hnx : rx.nominal = .num nx) (hvx : rx.value = .num vx)
    (hny : ry.nominal = .num ny) (hvy : ry.value = .num vy)
    (hnxp : 0 < nx) (hnyp : 0 < ny)
    (a : ℚ) (ha : 0 ≤ a) :
    convert (.float (.num a)) X Y t =
      if vy / ny = 0 then .error (.zeroRate Y)
      else .ok (.num (a * (vx / nx) / (vy / ny))) :=
  convert_formula t hnd rx ry hx hy X Y hxc hyc hXn hYn hXY nx vx ny vy
    hnx hvx hny hvy hnxp hnyp a ha

/-- Witness for C1: the spec's end-to-end examples,
convert(100, USD, RUB) = 9000 and convert(100, USD, HUF) = 36000 on the
table USD (1, 90), HUF (100, 25), RUB (1, 1). -/
theorem convert_cross_rate_formula_witness :
    convert (.float (.num 100)) ("USD") ("RUB") goodTable = .ok (.num 9000) ∧
    convert (.float (.num 100)) ("USD") ("HUF") goodTable = .ok (.num 36000) := by
  constructor
  · have h := convert_cross_rate_formula goodTable (by decide)
      (⟨("USD"), .num 1, ("Доллар США"), .num 90⟩ : RateRow) rubRow
      (by decide) (by decide) ("USD") ("RUB") rfl rfl (by decide) (by decide) (by decide)
      1 90 1 1 rfl rfl rfl rfl one_pos one_pos 100 (by norm_num)
    rw [h]
    norm_num
  · have h := convert_cross_rate_formula goodTable (by decide)
      (⟨("USD"), .num 1, ("Доллар США"), .num 90⟩ : RateRow)
      (⟨("HUF"), .num 100, ("Венгерских форинтов"), .num 25⟩ : RateRow)
      (by decide) (by decide) ("USD") ("HUF") rfl rfl (by decide) (by decide) (by decide)
      1 90 100 25 rfl rfl rfl rfl one_pos (by norm_num) 100 (by norm_num)
    rw [h]
    norm_num

/-- Claim C5: when the two codes are equal after normalisation (uppercase,
trim), convert returns the validated amount exactly, for any table (no lookup
happens, the code need not exist) and any finite amount ≥ 0; in particular
convert(50, usd, USD, table) = 50 exactly. -/
theorem convert_identity_short_circuit :
    (∀ (t : RateTable) (f g : String) (q : ℚ), 0 ≤ q → pyNormCode f = pyNormCode g →
      convert (.float (.num q)) f g t = .ok (.num q)) ∧
    (∀ t : RateTable, convert (.float (.num 50)) ("usd") ("USD") t = .ok (.num 50)) := by
  constructor
  · intro t f g q hq he
    exact convert_same (.num q) t rfl
      (by simp only [PFloat.IsNeg, not_lt]; exact hq) he
  · intro t
    exact convert_same (.num 50) t rfl (by norm_num [PFloat.IsNeg]) (by decide)

/-- Witness for C5: the identity short-circuit on the empty table, where the
code USD does not even exist. -/
theorem convert_identity_short_circuit_witness :
    convert (.float (.num 50)) ("usd") ("USD") [] = .ok (.num 50) :=
  convert_identity_short_circuit.1 [] ("usd") ("USD") 50 (by norm_num) (by decide)

/-- Counterexample to claim C2: a NaN amount is NOT rejected by convert.  The
validation is only float() coercion plus an `amount < 0` test, and
`nan < 0` is false in Python, so a NaN amount flows through the arithmetic
and convert returns NaN instead of failing with a ConversionError. -/
theorem convert_nan_amount_accepted :
    convert (.float .nan) ("USD") ("HUF") goodTable = .ok .nan := by
  rw [convert_steps .nan goodTable (show pyFloatCoerce (.float .nan) = some .nan from rfl) (by simp [PFloat.IsNeg]) (by decide)]
  rw [rate_to_rub_found (⟨("USD"), .num 1, ("Доллар США"), .num 90⟩ : RateRow) (by decide)
      (by norm_num [PFloat.NonPos])]
  rw [rate_to_rub_found (⟨("HUF"), .num 100, ("Венгерских форинтов"), .num 25⟩ : RateRow)
      (by decide) (by norm_num [PFloat.NonPos])]
  norm_num [PFloat.EqZero, PFloat.mul, PFloat.div]

/-- Claim C2 (amended): convert rejects non-coercible amounts with the
bad-amount error and negative amounts (including -inf, which satisfies
`< 0`) with the distinct negative-amount error; but NaN and +inf amounts
pass validation and propagate into the result (NaN/+inf out) instead of
failing. -/
theorem convert_amount_validation_amended (t : RateTable) (f g : String) (a : PyVal) (q : ℚ) :
    (pyFloatCoerce a = Option.none → convert a f g t = .error .badAmount) ∧
    (q < 0 → convert (.float (.num q)) f g t = .error .negativeAmount) ∧
    (convert (.float .ninf) f g t = .error .negativeAmount) ∧
    (ConversionError.badAmount ≠ ConversionError.negativeAmount) ∧
    (convert (.float .nan) ("USD") ("HUF") goodTable = .ok .nan) ∧
    (convert (.float .inf) ("USD") ("HUF") goodTable = .ok .inf) := by
  refine ⟨?_, ?_, ?_, by decide, ?_, ?_⟩
  · intro h
    exact convert_coerce_fail f g t h
  · intro hq
    exact convert_neg (.num q) f g t rfl hq
  · exact convert_neg .ninf f g t rfl trivial
  · rw [convert_steps .nan goodTable (show pyFloatCoerce (.float .nan) = some .nan from rfl) (by simp [PFloat.IsNeg]) (by decide)]
    rw [rate_to_rub_found (⟨("USD"), .num 1, ("Доллар США"), .num 90⟩ : RateRow) (by decide)
        (by norm_num [PFloat.NonPos])]
    rw [rate_to_rub_found (⟨("HUF"), .num 100, ("Венгерских форинтов"), .num 25⟩ : RateRow)
        (by decide) (by norm_num [PFloat.NonPos])]
    norm_num [PFloat.EqZero, PFloat.mul, PFloat.div]
  · rw [convert_steps .inf goodTable (show pyFloatCoerce (.float .inf) = some .inf from rfl) (by simp [PFloat.IsNeg]) (by decide)]
    rw [rate_to_rub_found (⟨("USD"), .num 1, ("Доллар США"), .num 90⟩ : RateRow) (by decide)
        (by norm_num [PFloat.NonPos])]
    rw [rate_to_rub_found (⟨("HUF"), .num 100, ("Венгерских форинтов"), .num 25⟩ : RateRow)
        (by decide) (by norm_num [PFloat.NonPos])]
    norm_num [PFloat.EqZero, PFloat.mul, PFloat.div]

/-- Witness for C2 (amended): a non-numeric object and a negative amount are
rejected with the two distinct errors. -/
theorem convert_amount_validation_amended_witness :
    convert PyVal.obj ("USD") ("HUF") goodTable = .error .badAmount ∧
    convert (.float (.num (-3))) ("USD") ("HUF") goodTable = .error .negativeAmount := by
  have h := convert_amount_validation_amended goodTable ("USD") ("HUF") PyVal.obj (-3)
  exact ⟨h.1 rfl, h.2.1 (by norm_num)⟩

/-- Claim C8: convert is linear in the amount.  For rows X and Y of a
uniquely keyed table (finite values, positive nominals, nonzero target
value — so both calls succeed) and any finite a ≥ 0, the result at amount a
is a * (vx/nx) / (vy/ny) and the result at amount 2a is exactly twice that.
The codes may also coincide, where linearity holds via the identity
short-circuit. -/
theorem convert_linear_in_amount (t : RateTable) (hnd : (t.map RateRow.code).Nodup)
    (rx ry : RateRow) (hx : rx ∈ t) (hy : ry ∈ t) (X Y : String)
    (hxc : rx.code = X) (hyc : ry.code = Y)
    (hXn : pyNormCode X = X) (hYn : pyNormCode Y = Y)
    (nx vx ny vy : ℚ)
    (hnx : rx.nominal = .num nx) (hvx : rx.value = .num vx)
    (hny : ry.nominal = .num ny) (hvy : ry.value = .num vy)
    (hnxp : 0 < nx) (hnyp : 0 < ny) (hvyz : vy ≠ 0)
    (a : ℚ) (ha : 0 ≤ a) :
    convert (.float (.num a)) X Y t = .ok (.num (a * (vx / nx) / (vy / ny))) ∧
    convert (.float (.num (2 * a))) X Y t = .ok (.num (2 * (a * (vx / nx) / (vy / ny)))) := by
  have hz : vy / ny ≠ 0 := div_ne_zero hvyz (ne_of_gt hnyp)
  by_cases hXY : X = Y
  · subst hXY
    have h1 := find_code_of_nodup hnd hx
    have h2 := find_code_of_nodup hnd hy
    rw [hxc] at h1
    rw [hyc] at h2
    have hrxy : rx = ry := Option.some.inj (h1.symm.trans h2)
    have hvxy : vx = vy := by
      rw [hrxy, hvy] at hvx
      exact (PFloat.num.inj hvx).symm
    have hnxy : nx = ny := by
      rw [hrxy, hny] at hnx
      exact (PFloat.num.inj hnx).symm
    have hfix : ∀ b : ℚ, b * (vx / nx) / (vy / ny) = b := by
      intro b
      rw [hvxy, hnxy]
      exact mul_div_cancel_right₀ b hz
    constructor
    · rw [convert_same (.num a) t
        (show pyFloatCoerce (.float (.num a)) = some (.num a) from rfl)
        (by simp only [PFloat.IsNeg, not_lt]; exact ha) rfl, hfix a]
    · rw [convert_same (.num (2 * a)) t
        (show pyFloatCoerce (.float (.num (2 * a))) = some (.num (2 * a)) from rfl)
        (by simp only [PFloat.IsNeg, not_lt]; linarith) rfl, hfix a]
  · have hca := convert_formula t hnd rx ry hx hy X Y hxc hyc hXn hYn hXY nx vx ny vy
      hnx hvx hny hvy hnxp hnyp a ha
    have hc2 := convert_formula t hnd rx ry hx hy X Y hxc hyc hXn hYn hXY nx vx ny vy
      hnx hvx hny hvy hnxp hnyp (2 * a) (by linarith)
    rw [if_neg hz] at hca hc2
    refine ⟨hca, ?_⟩
    rw [hc2]
    have : 2 * a * (vx / nx) / (vy / ny) = 2 * (a * (vx / nx) / (vy / ny)) := by
      ring
    rw [this]

/-- Witness for C8: on the example table, convert(5, USD, HUF) = 1800 and
convert(10, USD, HUF) = 3600 = 2 * 1800. -/
theorem convert_linear_in_amount_witness :
    convert (.float (.num 5)) ("USD") ("HUF") goodTable = .ok (.num 1800) ∧
    convert (.float (.num 10)) ("USD") ("HUF") goodTable = .ok (.num 3600) := by
  have h := convert_linear_in_amount goodTable (by decide)
    (⟨("USD"), .num 1, ("Доллар США"), .num 90⟩ : RateRow)
    (⟨("HUF"), .num 100, ("Венгерских форинтов"), .num 25⟩ : RateRow)
    (by decide) (by decide) ("USD") ("HUF") rfl rfl (by decide) (by decide)
    1 90 100 25 rfl rfl rfl rfl one_pos (by norm_num) (by norm_num) 5 (by norm_num)
  obtain ⟨h1, h2⟩ := h
  constructor
  · rw [h1]
    norm_num
  · have e : (2 : ℚ) * 5 = 10 := by norm_num
    rw [e] at h2
    rw [h2]
    norm_num

/-- Claim C9: convert fails with the bad-amount error exactly when the
float() coercion of the amount fails (raises TypeError or ValueError); in
particular a numeric string like "100" is accepted and convert behaves as if
the corresponding float had been passed. -/
theorem convert_amount_coercion_iff :
    (∀ (a : PyVal) (f g : String) (t : RateTable),
      convert a f g t = .error .badAmount ↔ pyFloatCoerce a = Option.none) ∧
    (∀ (s : String) (x : PFloat) (f g : String) (t : RateTable),
      pyParseFloat s = some x → convert (.str s) f g t = convert (.float x) f g t) ∧
    pyParseFloat ("100") = some (.num 100) := by
  refine ⟨?_, ?_, by decide⟩
  · intro a f g t
    constructor
    · intro h
      cases hc : pyFloatCoerce a with
      | none => rfl
      | some x =>
        exfalso
        by_cases hn : x.IsNeg
        · rw [convert_neg x f g t hc hn] at h
          simp at h
        · by_cases he : pyNormCode f = pyNormCode g
          · rw [convert_same x t hc hn he] at h
            simp at h
          · rw [convert_steps x t hc hn he] at h
            cases hr1 : rate_to_rub t (pyNormCode f) with
            | error e =>
              rw [hr1] at h
              simp at h
              rcases rate_to_rub_error_shape hr1 with ⟨cc, hcc⟩ | ⟨cc, nn, hcc⟩ <;>
                simp [hcc] at h
            | ok rs =>
              rw [hr1] at h
              cases hr2 : rate_to_rub t (pyNormCode g) with
              | error e =>
                rw [hr2] at h
                simp at h
                rcases rate_to_rub_error_shape hr2 with ⟨cc, hcc⟩ | ⟨cc, nn, hcc⟩ <;>
                  simp [hcc] at h
              | ok rd =>
                rw [hr2] at h
                by_cases hz : rd.EqZero
                · simp [hz] at h
                · simp [hz] at h
    · intro h
      exact convert_coerce_fail f g t h
  · intro s x f g t hp
    unfold convert
    rw [show pyFloatCoerce (PyVal.str s) = some x from hp]
    rfl

/-- Witness for C9: the string "100" converts exactly like the float 100. -/
theorem convert_amount_coercion_iff_witness :
    convert (.str ("100")) ("USD") ("HUF") goodTable
      = convert (.float (.num 100)) ("USD") ("HUF") goodTable :=
  convert_amount_coercion_iff.2.1 ("100") (.num 100) ("USD") ("HUF") goodTable (by decide)

/-- Claim C7: with a valid amount and codes that differ after normalisation,
a missing source code fails with the unknown-currency error naming the
normalised source code; a present source (with valid nominal) and missing
target code fails naming the normalised target code.  The unknown-currency
message contains the named code, and the error is distinct from both amount
errors, so the caller can tell the failures apart. -/
theorem convert_unknown_code_errors (t : RateTable) (a : PyVal) (f g : String) (x : PFloat)
    (hnd : (t.map RateRow.code).Nodup)
    (hc : pyFloatCoerce a = some x) (hxn : ¬ x.IsNeg)
    (hne : pyNormCode f ≠ pyNormCode g) :
    (pyNormCode f ∉ t.map RateRow.code →
      convert a f g t = .error (.unknownCurrency (pyNormCode f))) ∧
    (∀ rf : RateRow, rf ∈ t → rf.code = pyNormCode f → ¬ rf.nominal.NonPos →
      pyNormCode g ∉ t.map RateRow.code →
      convert a f g t = .error (.unknownCurrency (pyNormCode g))) ∧
    (∀ c : String, (ConversionError.unknownCurrency c).message =
      "Валюта \x27" ++ c ++ "\x27 отсутствует в таблице курсов.") ∧
    (∀ c : String, ConversionError.unknownCurrency c ≠ .badAmount ∧
      ConversionError.unknownCurrency c ≠ .negativeAmount) := by
  refine ⟨?_, ?_, ?_, ?_⟩
  case refine_3 =>
    intro c
    rfl
  case refine_4 =>
    intro c
    constructor
    · intro h
      cases h
    · intro h
      cases h
  · intro hmem
    rw [convert_steps x t hc hxn hne]
    have hfind : t.find? (fun r => r.code == pyNormCode (pyNormCode f)) = Option.none := by
      rw [pyNormCode_idem]
      rw [List.find?_eq_none]
      intro r hr hbe
      refine hmem ?_
      have hrc : r.code = pyNormCode f := by simpa using hbe
      rw [← hrc]
      exact List.mem_map_of_mem RateRow.code hr
    have hrr := rate_to_rub_missing hfind
    rw [pyNormCode_idem] at hrr
    rw [hrr]
  · intro rf hrf hrfc hrfnom hmem
    rw [convert_steps x t hc hxn hne]
    have hfindf : t.find? (fun s => s.code == pyNormCode (pyNormCode f)) = some rf := by
      rw [pyNormCode_idem, ← hrfc]
      exact find_code_of_nodup hnd hrf
    have hrrf := rate_to_rub_found rf hfindf hrfnom
    have hfindg : t.find? (fun r => r.code == pyNormCode (pyNormCode g)) = Option.none := by
      rw [pyNormCode_idem]
      rw [List.find?_eq_none]
      intro r hr hbe
      refine hmem ?_
      have hrc : r.code = pyNormCode g := by simpa using hbe
      rw [← hrc]
      exact List.mem_map_of_mem RateRow.code hr
    have hrrg := rate_to_rub_missing hfindg
    rw [pyNormCode_idem] at hrrg
    rw [hrrf, hrrg]

/-- Witness for C7: on the example table, an unknown source code zzz and an
unknown target code zzz each fail with the unknown-currency error naming the
normalised code ZZZ. -/
theorem convert_unknown_code_errors_witness :
    convert (.float (.num 1)) ("zzz") ("USD") goodTable
      = .error (.unknownCurrency ("ZZZ")) ∧
    convert (.float (.num 1)) ("USD") ("zzz") goodTable
      = .error (.unknownCurrency ("ZZZ")) := by
  constructor
  · have h := (convert_unknown_code_errors goodTable (.float (.num 1)) ("zzz") ("USD") (.num 1)
      (by decide) (show pyFloatCoerce (.float (.num 1)) = some (.num 1) from rfl)
      (by norm_num [PFloat.IsNeg]) (by decide)).1 (by decide)
    rw [h, show pyNormCode ("zzz") = "ZZZ" from by decide]
  · have h := (convert_unknown_code_errors goodTable (.float (.num 1)) ("USD") ("zzz") (.num 1)
      (by decide) (show pyFloatCoerce (.float (.num 1)) = some (.num 1) from rfl)
      (by norm_num [PFloat.IsNeg]) (by decide)).2.1
      (⟨("USD"), .num 1, ("Доллар США"), .num 90⟩ : RateRow) (by decide) (by decide)
      (by norm_num [PFloat.NonPos]) (by decide)
    rw [h, show pyNormCode ("zzz") = "ZZZ" from by decide]

/-- Claim C3 (evaluation at the failing inputs): a Курс cell "abc" makes the
pipeline raise pandas' plain ValueError — a different exception kind from the
module's DataParseError, because _normalize_rates is called outside any
try/except — and a non-integer Единиц cell "10.5" raises nothing at all: the
table is returned with the fractional nominal accepted. -/
theorem normalize_cell_error_kinds :
    process_tables [badValueFrame] =
      .error (.valueError ("Unable to parse string \x22abc\x22")) ∧
    (FetchError.valueError ("Unable to parse string \x22abc\x22") ≠
      FetchError.dataParseError ("Unable to parse string \x22abc\x22")) ∧
    process_tables [fracNominalFrame] = .ok fracTable := by
  refine ⟨by decide, by decide, by decide⟩

/-- Counterexample to claim C4: a source document that already carries a RUB
row keeps it as-is.  Here the fetched table's RUB entry has nominal 2 and
value 3, not the pivot invariant nominal 1 / value 1.0. -/
theorem fetch_keeps_source_pivot_row :
    process_tables [rubSrcFrame] = .ok rubSrcTable ∧
    rubSrcTable.find? (fun r => r.code == "RUB")
      = some ⟨("RUB"), .num 2, ("Российский рубль"), .num 3⟩ ∧
    PFloat.num 2 ≠ PFloat.num 1 ∧ PFloat.num 3 ≠ PFloat.num 1 := by
  refine ⟨by decide, by decide, by decide, by decide⟩

/-- Claim C4 (amended): every successfully normalised table contains a RUB
row; when the source table has no RUB row after code normalisation, exactly
one RUB entry is present and it is the synthesised pivot row with nominal 1,
value 1.0 and the pivot display name.  A source-supplied RUB row, however, is
kept unchanged (see the counterexample). -/
theorem fetch_pivot_completeness_amended (fr : RawFrame) (t : List RateRow)
    (codes : List String) (h : normalize_rates fr = .ok t) :
    (∃ r ∈ t, r.code = "RUB") ∧
    (fr.colCells ("Букв. код") = some codes → ("RUB") ∉ codes.map pyNormCode →
      rubRow ∈ t ∧ t.countP (fun r => r.code == "RUB") = 1) := by
  constructor
  · exact rub_mem_of_normalize_ok h
  · intro hcol hno
    obtain ⟨codes2, noms, names, vnums, hcol2, ht⟩ := normalize_rates_ok h
    have hceq : codes2 = codes := Option.some.inj (hcol2.symm.trans hcol)
    subst hceq
    have hrows : ∀ r ∈ buildRows (codes2.map pyNormCode) noms names vnums, r.code ≠ "RUB" := by
      intro r hr he
      exact hno (he ▸ buildRows_code_mem hr)
    constructor
    · rw [ht]
      refine (sortRows_perm _).mem_iff.mpr ?_
      rw [addPivot_of_no_rub hrows]
      exact List.mem_append.mpr (Or.inr (by simp))
    · rw [ht]
      rw [List.Perm.countP_eq _ (sortRows_perm _)]
      exact addPivot_countP_one hrows

/-- Witness for C4 (amended): the example document (codes USD and HUF, no
RUB row) yields a table containing exactly one RUB entry, the synthesised
pivot row. -/
theorem fetch_pivot_completeness_amended_witness :
    rubRow ∈ goodTable ∧ goodTable.countP (fun r => r.code == "RUB") = 1 :=
  (fetch_pivot_completeness_amended goodFrame goodTable (["USD", "HUF"])
    (by decide)).2 (by decide) (by decide)

/-- Claim C6: a document with zero tables fails with DataParseError; a
document none of whose tables matches the five-label column signature fails
with DataParseError; when a unique table matches the signature it is
selected regardless of position — in particular with three tables of which
only the third matches, the third is normalised. -/
theorem fetch_table_selection :
    (process_tables [] = .error (.dataParseError ("На странице отсутствуют таблицы."))) ∧
    (∀ ts : List RawFrame, ts ≠ [] → (∀ tb ∈ ts, matchesSignature tb = false) →
      process_tables ts =
        .error (.dataParseError ("Не удалось найти таблицу курсов в HTML странице ЦБ."))) ∧
    (∀ (ts : List RawFrame) (tb : RawFrame), tb ∈ ts → matchesSignature tb = true →
      (∀ u ∈ ts, matchesSignature u = true → u = tb) →
      select_cbr_table ts = .ok tb) ∧
    (∀ t1 t2 t3 : RawFrame, matchesSignature t1 = false → matchesSignature t2 = false →
      matchesSignature t3 = true →
      process_tables [t1, t2, t3] = normalize_rates t3) := by
  refine ⟨rfl, ?_, ?_, ?_⟩
  · intro ts hne hall
    have hfind : ts.find? matchesSignature = Option.none :=
      List.find?_eq_none.mpr (fun x hx => by rw [hall x hx]; simp)
    unfold process_tables
    rw [if_neg (by simpa [List.isEmpty_iff] using hne)]
    unfold select_cbr_table
    rw [hfind]
  · intro ts tb hmem hsig huniq
    induction ts with
    | nil => cases hmem
    | cons a ts ih =>
      by_cases ha : matchesSignature a = true
      · have hatb : a = tb := huniq a (List.mem_cons_self a ts) ha
        unfold select_cbr_table
        rw [List.find?_cons_of_pos _ ha, hatb]
      · have htb : tb ∈ ts := by
          rcases List.mem_cons.mp hmem with he | hm
          · rw [he] at hsig
            exact absurd hsig ha
          · exact hm
        have := ih htb (fun u hu hsu => huniq u (List.mem_cons_of_mem a hu) hsu)
        unfold select_cbr_table at this ⊢
        rw [List.find?_cons_of_neg _ ha]
        exact this
  · intro t1 t2 t3 h1 h2 h3
    unfold process_tables select_cbr_table
    rw [show ([t1, t2, t3].find? matchesSignature) = some t3 from by
      rw [List.find?_cons_of_neg _ (by simp [h1]), List.find?_cons_of_neg _ (by simp [h2]),
        List.find?_cons_of_pos _ h3]]
    rfl

/-- Witness for C6: a one-table document with the wrong columns fails with
DataParseError, and a three-table document where only the third table
matches selects and normalises the third. -/
theorem fetch_table_selection_witness :
    process_tables [noSigFrame] =
      .error (.dataParseError ("Не удалось найти таблицу курсов в HTML странице ЦБ.")) ∧
    process_tables [noSigFrame, noSigFrame, goodFrame] = normalize_rates goodFrame := by
  constructor
  · exact fetch_table_selection.2.1 [noSigFrame] (by decide) (by decide)
  · exact fetch_table_selection.2.2.2 noSigFrame noSigFrame goodFrame
      (by decide) (by decide) (by decide)

/-- Claim C10: get_supported_codes fails (with the bad-table ConversionError)
exactly on a non-DataFrame argument or a frame missing the Value or the
Nominal column (Name is not required); the cell data is never consulted; on
success it returns the index labels in index order — which, for any table
produced by the fetch pipeline, is sorted ascending and contains RUB. -/
theorem get_supported_codes_contract :
    (get_supported_codes PyArg.other = .error .badTable) ∧
    (∀ fr : PdFrame, get_supported_codes (.frame fr) =
      if ("Value") ∈ fr.columns ∧ ("Nominal") ∈ fr.columns then .ok fr.index
      else .error .badTable) ∧
    (∀ (ix cols : List String) (cells cells2 : List (List PFloat)),
      get_supported_codes (.frame ⟨ix, cols, cells⟩)
        = get_supported_codes (.frame ⟨ix, cols, cells2⟩)) ∧
    (∀ (ts : List RawFrame) (t : List RateRow), process_tables ts = .ok t →
      get_supported_codes (.frame (tableToFrame t)) = .ok (t.map (fun r => r.code)) ∧
      List.Sorted (fun a b : String => a ≤ b) (t.map (fun r => r.code)) ∧
      ("RUB") ∈ t.map (fun r => r.code)) := by
  refine ⟨rfl, fun fr => rfl, fun ix cols cells cells2 => rfl, ?_⟩
  intro ts t h
  obtain ⟨tb, hsel, hnorm⟩ := process_tables_ok h
  refine ⟨?_, ?_, ?_⟩
  · simp [get_supported_codes, tableToFrame]
  · exact sorted_of_normalize_ok hnorm
  · obtain ⟨r, hr, hc⟩ := rub_mem_of_normalize_ok hnorm
    exact hc ▸ List.mem_map_of_mem (fun r => r.code) hr

/-- Witness for C10: the codes of the example pipeline table are HUF, RUB,
USD — in index order, sorted, and containing RUB. -/
theorem get_supported_codes_contract_witness :
    get_supported_codes (.frame (tableToFrame goodTable))
      = .ok (goodTable.map (fun r => r.code)) ∧
    ("RUB") ∈ goodTable.map (fun r => r.code) := by
  have h := get_supported_codes_contract.2.2.2 [goodFrame] goodTable (by decide)
  exact ⟨h.1, h.2.2⟩
